import Mathlib

/-!
Verification of the watch-diff-broadcast pipeline of the `log-viewer`
repository (Go).  The definitions below are a shallow embedding of the
source files `watcher.go`, `websocket.go` and the `main` file: pure Go
functions become Lean functions, the filesystem and network environment
becomes explicit record parameters, and the per-event state updates
become explicit state passing.
-/

namespace LogViewer

/-- Embedding of the Go struct `LineChange` (watcher.go).  Go zero values:
an `added` entry leaves `oldLine = 0` and `oldText = ""`, a `removed`
entry leaves `newLine = 0` and `newText = ""`. -/
structure LineChange where
  kind : String
  oldLine : Nat
  newLine : Nat
  oldText : String
  newText : String
deriving DecidableEq, Repr

/-- The `LineChange` literal built in the `added` branch of the backward
walk of `compareLines`: only `Type`, `NewLine`, `NewText` are set. -/
def mkAdded (newLine : Nat) (newText : String) : LineChange :=
  { kind := "added", oldLine := 0, newLine := newLine, oldText := "", newText := newText }

/-- The `LineChange` literal built in the `removed` branch of the backward
walk of `compareLines`: only `Type`, `OldLine`, `OldText` are set. -/
def mkRemoved (oldLine : Nat) (oldText : String) : LineChange :=
  { kind := "removed", oldLine := oldLine, newLine := 0, oldText := oldText, newText := "" }

/-- Fuelled form of the dynamic-programming table of `compareLines`
(watcher.go): `dp[i][j]` is defined by `dp[i][j] = dp[i-1][j-1] + 1` when
`oldLines[i-1] = newLines[j-1]` and `max(dp[i-1][j], dp[i][j-1])`
otherwise, with `dp[0][j] = dp[i][0] = 0`.  Each recursive call strictly
decreases `i + j`, so fuel `i + j` computes the table value; the fuel
argument only makes the recursion structural. -/
def dpF (old new : List String) : Nat → Nat → Nat → Nat
  | 0, _, _ => 0
  | fuel + 1, i, j =>
    if i = 0 ∨ j = 0 then 0
    else if old.getD (i - 1) "" = new.getD (j - 1) "" then
      dpF old new fuel (i - 1) (j - 1) + 1
    else
      max (dpF old new fuel (i - 1) j) (dpF old new fuel i (j - 1))

/-- The value `dp[i][j]` of the table that `compareLines` fills. -/
def dpT (old new : List String) (i j : Nat) : Nat :=
  dpF old new (i + j) i j

/-- Fuelled form of the backward walk of `compareLines` (watcher.go,
the `for i > 0 || j > 0` loop).  The three `switch` cases are translated
in source order; Go's `dp[i][j-1] >= dp[i-1][j]` is written
`dpT (i-1) j ≤ dpT i (j-1)`.  The final `else` branch is unreachable
while `0 < i ∨ 0 < j` (the Go `switch` is exhaustive there).  Each
iteration strictly decreases `i + j`, so fuel `i + j` runs the loop to
completion. -/
def backtrackF (old new : List String) : Nat → Nat → Nat → List LineChange → List LineChange
  | 0, _, _, acc => acc
  | fuel + 1, i, j, acc =>
    if i = 0 ∧ j = 0 then acc
    else if 0 < i ∧ 0 < j ∧ old.getD (i - 1) "" = new.getD (j - 1) "" then
      backtrackF old new fuel (i - 1) (j - 1) acc
    else if 0 < j ∧ (i = 0 ∨ dpT old new (i - 1) j ≤ dpT old new i (j - 1)) then
      backtrackF old new fuel i (j - 1) (mkAdded j (new.getD (j - 1) "") :: acc)
    else if 0 < i then
      backtrackF old new fuel (i - 1) j (mkRemoved i (old.getD (i - 1) "") :: acc)
    else acc

/-- `compareLines` on the two line sequences obtained after splitting:
builds the LCS table and walks it backward from `(m, n)`, prepending one
`LineChange` per non-matching step. -/
def diffLines (old new : List String) : List LineChange :=
  backtrackF old new (old.length + new.length) old.length new.length []

/-- Embedding of Go `strings.Split(s, "\n")` on the character list of
`s`: splitting on every newline character, yielding one (possibly empty)
fragment per separator-delimited run; the empty string yields `[[]]`. -/
def splitNlChars : List Char → List (List Char)
  | [] => [[]]
  | c :: cs =>
    let r := splitNlChars cs
    if c = '\n' then [] :: r
    else (c :: r.headD []) :: r.tail

/-- Go `strings.Split(s, "\n")` as used by `compareLines`. -/
def splitNl (s : String) : List String :=
  (splitNlChars s.data).map (fun cs => String.mk cs)

/-- Embedding of `FileWatcher.compareLines` (watcher.go): split both
texts on the newline character, then diff the line sequences. -/
def compareLines (oldContent newContent : String) : List LineChange :=
  diffLines (splitNl oldContent) (splitNl newContent)

example : compareLines "a\nb\nc" "a\nx\nc" = [mkRemoved 2 "b", mkAdded 2 "x"] := by decide

example : compareLines "" "a" = [mkRemoved 1 "", mkAdded 1 "a"] := by decide

example : compareLines "a" "" = [mkRemoved 1 "a", mkAdded 1 ""] := by decide

example : compareLines "" "a\nb" = [mkRemoved 1 "", mkAdded 1 "a", mkAdded 2 "b"] := by decide

example : diffLines ["a", "b"] ["a", "b", "c"] = [mkAdded 3 "c"] := by decide

example : compareLines "x" "x" = [] := by decide

/-- The 1-based old-line numbers of the `removed` entries of a change
sequence, in output order. -/
def removedPositions (cs : List LineChange) : List Nat :=
  cs.filterMap (fun c => if c.kind = "removed" then some c.oldLine else none)

/-- The `(newLineNumber, newText)` pairs of the `added` entries of a
change sequence, in output order. -/
def addedEntries (cs : List LineChange) : List (Nat × String) :=
  cs.filterMap (fun c => if c.kind = "added" then some (c.newLine, c.newText) else none)

/-- The 1-based new-line numbers of the `added` entries, in output
order. -/
def addedPositions (cs : List LineChange) : List Nat :=
  (addedEntries cs).map Prod.fst

/-- Delete from `xs` every line whose 1-based position (offset by the
start index `k`) belongs to `ps`: the deletion half of interpreting a
change sequence as an edit script. -/
def keepFrom (ps : List Nat) : Nat → List String → List String
  | _, [] => []
  | k, x :: xs => if (k + 1) ∈ ps then keepFrom ps (k + 1) xs else x :: keepFrom ps (k + 1) xs

/-- Insert `t` at 0-based index `n` (at the end when `n` is past the
end): the insertion half of interpreting a change sequence as an edit
script. -/
def insertAt (t : String) : Nat → List String → List String
  | 0, xs => t :: xs
  | _ + 1, [] => [t]
  | n + 1, x :: xs => x :: insertAt t n xs

/-- Interpret a change sequence as an edit script over the old line
sequence: delete each `removed` line at its `oldLineNumber`, then insert
each `added` line at its `newLineNumber` (in output order). -/
def applyScript (old : List String) (cs : List LineChange) : List String :=
  (addedEntries cs).foldl (fun acc pt => insertAt pt.2 (pt.1 - 1) acc)
    (keepFrom (removedPositions cs) 0 old)

lemma removedPositions_append (xs ys : List LineChange) :
    removedPositions (xs ++ ys) = removedPositions xs ++ removedPositions ys := by
  simp [removedPositions]

lemma addedEntries_append (xs ys : List LineChange) :
    addedEntries (xs ++ ys) = addedEntries xs ++ addedEntries ys := by
  simp [addedEntries]

lemma removedPositions_mkAdded (j : Nat) (t : String) :
    removedPositions [mkAdded j t] = [] := rfl

lemma removedPositions_mkRemoved (i : Nat) (t : String) :
    removedPositions [mkRemoved i t] = [i] := rfl

lemma addedEntries_mkAdded (j : Nat) (t : String) :
    addedEntries [mkAdded j t] = [(j, t)] := rfl

lemma addedEntries_mkRemoved (i : Nat) (t : String) :
    addedEntries [mkRemoved i t] = [] := rfl

lemma backtrackF_zero_zero (old new : List String) (f : Nat) (acc : List LineChange) :
    backtrackF old new f 0 0 acc = acc := by
  cases f <;> simp [backtrackF]

lemma backtrackF_succ (old new : List String) (f i j : Nat) (acc : List LineChange) :
    backtrackF old new (f + 1) i j acc =
      if i = 0 ∧ j = 0 then acc
      else if 0 < i ∧ 0 < j ∧ old.getD (i - 1) "" = new.getD (j - 1) "" then
        backtrackF old new f (i - 1) (j - 1) acc
      else if 0 < j ∧ (i = 0 ∨ dpT old new (i - 1) j ≤ dpT old new i (j - 1)) then
        backtrackF old new f i (j - 1) (mkAdded j (new.getD (j - 1) "") :: acc)
      else if 0 < i then
        backtrackF old new f (i - 1) j (mkRemoved i (old.getD (i - 1) "") :: acc)
      else acc := rfl

lemma backtrackF_acc (old new : List String) (f : Nat) :
    ∀ i j acc, backtrackF old new f i j acc = backtrackF old new f i j [] ++ acc := by
  induction f with
  | zero => intro i j acc; simp [backtrackF]
  | succ f ih =>
    intro i j acc
    by_cases h0 : i = 0 ∧ j = 0
    · simp [backtrackF, h0]
    · by_cases heq : 0 < i ∧ 0 < j ∧ old.getD (i - 1) "" = new.getD (j - 1) ""
      · simp only [backtrackF, if_neg h0, if_pos heq]
        exact ih (i - 1) (j - 1) acc
      · by_cases hadd : 0 < j ∧ (i = 0 ∨ dpT old new (i - 1) j ≤ dpT old new i (j - 1))
        · simp only [backtrackF, if_neg h0, if_neg heq, if_pos hadd]
          rw [ih i (j - 1) (mkAdded j (new.getD (j - 1) "") :: acc),
            ih i (j - 1) (mkAdded j (new.getD (j - 1) "") :: [])]
          simp
        · by_cases hrem : 0 < i
          · simp only [backtrackF, if_neg h0, if_neg heq, if_neg hadd, if_pos hrem]
            rw [ih (i - 1) j (mkRemoved i (old.getD (i - 1) "") :: acc),
              ih (i - 1) j (mkRemoved i (old.getD (i - 1) "") :: [])]
            simp
          · simp only [backtrackF, if_neg h0, if_neg heq, if_neg hadd, if_neg hrem]
            simp

lemma addedPositions_append (xs ys : List LineChange) :
    addedPositions (xs ++ ys) = addedPositions xs ++ addedPositions ys := by
  simp [addedPositions, addedEntries]

lemma addedPositions_mkAdded (j : Nat) (t : String) :
    addedPositions [mkAdded j t] = [j] := rfl

lemma addedPositions_mkRemoved (i : Nat) (t : String) :
    addedPositions [mkRemoved i t] = [] := rfl

/-- Shape of the change sequence produced by the backward walk: the
`removed` old-line numbers are strictly increasing and lie in `[1, i]`,
and the `added` new-line numbers are strictly increasing and lie in
`[1, j]`. -/
lemma script_shape (old new : List String) (f : Nat) :
    ∀ i j,
      ((removedPositions (backtrackF old new f i j [])).Pairwise (· < ·) ∧
        ∀ p ∈ removedPositions (backtrackF old new f i j []), 1 ≤ p ∧ p ≤ i) ∧
      ((addedPositions (backtrackF old new f i j [])).Pairwise (· < ·) ∧
        ∀ p ∈ addedPositions (backtrackF old new f i j []), 1 ≤ p ∧ p ≤ j) := by
  induction f with
  | zero =>
    intro i j
    simp [backtrackF, removedPositions, addedPositions, addedEntries]
  | succ f ih =>
    intro i j
    by_cases h0 : i = 0 ∧ j = 0
    · simp [backtrackF, if_pos h0, removedPositions, addedPositions, addedEntries]
    · by_cases heq : 0 < i ∧ 0 < j ∧ old.getD (i - 1) "" = new.getD (j - 1) ""
      · simp only [backtrackF, if_neg h0, if_pos heq]
        obtain ⟨⟨hr1, hr2⟩, ha1, ha2⟩ := ih (i - 1) (j - 1)
        refine ⟨⟨hr1, fun p hp => ?_⟩, ha1, fun p hp => ?_⟩
        · obtain ⟨h1, h2⟩ := hr2 p hp; exact ⟨h1, by omega⟩
        · obtain ⟨h1, h2⟩ := ha2 p hp; exact ⟨h1, by omega⟩
      · by_cases hadd : 0 < j ∧ (i = 0 ∨ dpT old new (i - 1) j ≤ dpT old new i (j - 1))
        · simp only [backtrackF, if_neg h0, if_neg heq, if_pos hadd]
          rw [backtrackF_acc]
          obtain ⟨⟨hr1, hr2⟩, ha1, ha2⟩ := ih i (j - 1)
          rw [removedPositions_append, removedPositions_mkAdded, List.append_nil,
            addedPositions_append, addedPositions_mkAdded]
          refine ⟨⟨hr1, hr2⟩, ?_, fun p hp => ?_⟩
          · rw [List.pairwise_append]
            refine ⟨ha1, by simp, fun a ha b hb => ?_⟩
            simp only [List.mem_singleton] at hb
            subst hb
            have := ha2 a ha
            omega
          · rcases List.mem_append.mp hp with h | h
            · have := ha2 p h; exact ⟨this.1, by omega⟩
            · simp only [List.mem_singleton] at h
              subst h
              exact ⟨by omega, le_refl _⟩
        · by_cases hrem : 0 < i
          · simp only [backtrackF, if_neg h0, if_neg heq, if_neg hadd, if_pos hrem]
            rw [backtrackF_acc]
            obtain ⟨⟨hr1, hr2⟩, ha1, ha2⟩ := ih (i - 1) j
            rw [removedPositions_append, removedPositions_mkRemoved,
              addedPositions_append, addedPositions_mkRemoved, List.append_nil]
            refine ⟨⟨?_, fun p hp => ?_⟩, ha1, ha2⟩
            · rw [List.pairwise_append]
              refine ⟨hr1, by simp, fun a ha b hb => ?_⟩
              simp only [List.mem_singleton] at hb
              subst hb
              have := hr2 a ha
              omega
            · rcases List.mem_append.mp hp with h | h
              · have := hr2 p h; exact ⟨this.1, by omega⟩
              · simp only [List.mem_singleton] at h
                subst h
                exact ⟨by omega, le_refl _⟩
          · simp only [backtrackF, if_neg h0, if_neg heq, if_neg hadd, if_neg hrem]
            simp [removedPositions, addedPositions, addedEntries]

lemma keepFrom_append (ps : List Nat) (xs : List String) :
    ∀ (k : Nat) (ys : List String),
      keepFrom ps k (xs ++ ys) = keepFrom ps k xs ++ keepFrom ps (k + xs.length) ys := by
  induction xs with
  | nil => intro k ys; simp [keepFrom]
  | cons x xs ihx =>
    intro k ys
    have harith : k + (x :: xs).length = k + 1 + xs.length := by
      simp [List.length_cons]; omega
    rw [List.cons_append]
    by_cases h : (k + 1) ∈ ps
    · simp only [keepFrom, if_pos h]
      rw [ihx (k + 1) ys, harith]
    · simp only [keepFrom, if_neg h]
      rw [ihx (k + 1) ys, harith, List.cons_append]

lemma keepFrom_snoc_irrel (ps : List Nat) (q : Nat) (xs : List String) :
    ∀ k, k + xs.length < q → keepFrom (ps ++ [q]) k xs = keepFrom ps k xs := by
  induction xs with
  | nil => intro k _; rfl
  | cons x xs ihx =>
    intro k h
    have hlen : (x :: xs).length = xs.length + 1 := List.length_cons x xs
    have hkq : k + 1 ≠ q := by rw [hlen] at h; omega
    have hmem : ((k + 1) ∈ ps ++ [q]) ↔ ((k + 1) ∈ ps) := by simp [hkq]
    have hrec : k + 1 + xs.length < q := by rw [hlen] at h; omega
    by_cases hm : (k + 1) ∈ ps
    · simp only [keepFrom, if_pos (hmem.mpr hm), if_pos hm]
      exact ihx (k + 1) hrec
    · simp only [keepFrom, if_neg (fun hc => hm (hmem.mp hc)), if_neg hm]
      rw [ihx (k + 1) hrec]

lemma keepFrom_singleton (ps : List Nat) (k : Nat) (x : String) :
    keepFrom ps k [x] = if (k + 1) ∈ ps then [] else [x] := by
  by_cases h : (k + 1) ∈ ps <;> simp [keepFrom, h]

lemma insertAt_append (t : String) (xs ys : List String) :
    insertAt t xs.length (xs ++ ys) = xs ++ t :: ys := by
  induction xs with
  | nil => rfl
  | cons x xs ihx => simp [insertAt, List.length_cons, ihx]

lemma take_succ_getD (l : List String) :
    ∀ i, i < l.length → l.take (i + 1) = l.take i ++ [l.getD i ""] := by
  induction l with
  | nil => intro i h; simp at h
  | cons x xs ihx =>
    intro i hi
    cases i with
    | zero => simp [List.getD]
    | succ n =>
      have hn : n < xs.length := by simp [List.length_cons] at hi; omega
      show x :: xs.take (n + 1) = (x :: xs.take n) ++ [xs.getD n ""]
      rw [ihx n hn]
      simp

/-- Core invariant of the backward walk: applying the edit script
produced from state `(i, j)` to the first `i` old lines, with an
arbitrary common suffix `tail`, yields the first `j` new lines followed
by `tail`. -/
lemma patch_correct (old new : List String) (f : Nat) :
    ∀ i j, i + j ≤ f → i ≤ old.length → j ≤ new.length →
      ∀ tail : List String,
        (addedEntries (backtrackF old new f i j [])).foldl
            (fun acc pt => insertAt pt.2 (pt.1 - 1) acc)
            (keepFrom (removedPositions (backtrackF old new f i j [])) 0 (old.take i) ++ tail)
          = new.take j ++ tail := by
  induction f with
  | zero =>
    intro i j hf hi hj tail
    have hi0 : i = 0 := by omega
    have hj0 : j = 0 := by omega
    subst hi0; subst hj0
    simp [backtrackF, removedPositions, addedEntries, keepFrom]
  | succ f ih =>
    intro i j hf hi hj tail
    by_cases h0 : i = 0 ∧ j = 0
    · obtain ⟨hi0, hj0⟩ := h0
      subst hi0; subst hj0
      simp [backtrackF, removedPositions, addedEntries, keepFrom]
    · by_cases heq : 0 < i ∧ 0 < j ∧ old.getD (i - 1) "" = new.getD (j - 1) ""
      · simp only [backtrackF, if_neg h0, if_pos heq]
        obtain ⟨hip, hjp, hline⟩ := heq
        obtain ⟨i', rfl⟩ : ∃ i', i = i' + 1 := ⟨i - 1, by omega⟩
        obtain ⟨j', rfl⟩ : ∃ j', j = j' + 1 := ⟨j - 1, by omega⟩
        simp only [Nat.add_sub_cancel] at hline ⊢
        have hbound := (script_shape old new f i' j').1.2
        rw [take_succ_getD old i' (by omega), keepFrom_append]
        have hlen : (old.take i').length = i' := by rw [List.length_take]; omega
        rw [hlen, Nat.zero_add, keepFrom_singleton]
        have hnotmem : ¬ (i' + 1) ∈ removedPositions (backtrackF old new f i' j' []) := by
          intro hmem
          have := hbound _ hmem
          omega
        rw [if_neg hnotmem, List.append_assoc, List.singleton_append,
          ih i' j' (by omega) (by omega) (by omega) (old.getD i' "" :: tail), hline,
          take_succ_getD new j' (by omega), List.append_assoc, List.singleton_append]
      · by_cases hadd : 0 < j ∧ (i = 0 ∨ dpT old new (i - 1) j ≤ dpT old new i (j - 1))
        · simp only [backtrackF, if_neg h0, if_neg heq, if_pos hadd]
          rw [backtrackF_acc]
          obtain ⟨j', rfl⟩ : ∃ j', j = j' + 1 := ⟨j - 1, by omega⟩
          simp only [Nat.add_sub_cancel]
          rw [removedPositions_append, removedPositions_mkAdded, List.append_nil,
            addedEntries_append, addedEntries_mkAdded, List.foldl_append]
          simp only [List.foldl_cons, List.foldl_nil]
          rw [ih i j' (by omega) hi (by omega) tail]
          have hlen : (new.take j').length = j' := by rw [List.length_take]; omega
          have hins : insertAt (new.getD j' "") j' (new.take j' ++ tail)
              = new.take j' ++ new.getD j' "" :: tail := by
            have h2 := insertAt_append (new.getD j' "") (new.take j') tail
            rwa [hlen] at h2
          simp only [Nat.add_sub_cancel]
          rw [hins, take_succ_getD new j' (by omega), List.append_assoc, List.singleton_append]
        · by_cases hrem : 0 < i
          · simp only [backtrackF, if_neg h0, if_neg heq, if_neg hadd, if_pos hrem]
            rw [backtrackF_acc]
            obtain ⟨i', rfl⟩ : ∃ i', i = i' + 1 := ⟨i - 1, by omega⟩
            simp only [Nat.add_sub_cancel]
            rw [removedPositions_append, removedPositions_mkRemoved,
              addedEntries_append, addedEntries_mkRemoved, List.append_nil]
            rw [take_succ_getD old i' (by omega), keepFrom_append]
            have hlen : (old.take i').length = i' := by rw [List.length_take]; omega
            rw [hlen, Nat.zero_add, keepFrom_singleton]
            rw [if_pos (by simp :
              (i' + 1) ∈ removedPositions (backtrackF old new f i' j []) ++ [i' + 1])]
            rw [List.append_nil,
              keepFrom_snoc_irrel (removedPositions (backtrackF old new f i' j []))
                (i' + 1) (old.take i') 0 (by rw [hlen]; omega)]
            exact ih i' j (by omega) (by omega) hj tail
          · exfalso
            have hi0 : i = 0 := by omega
            have hj0 : j = 0 := by
              by_contra hj0
              exact hadd ⟨by omega, Or.inl hi0⟩
            exact h0 ⟨hi0, hj0⟩

/-- Claim C4: for every pair of line sequences `old` and `new`, applying
the `LineChange` sequence returned by `compareLines` on those lines as an
edit script to the old sequence — deleting each `removed` line at its
`oldLineNumber` and inserting each `added` line at its `newLineNumber` —
reconstructs the new sequence exactly. -/
theorem claim_C4_apply_diff_reconstructs (old new : List String) :
    applyScript old (diffLines old new) = new := by
  have h := patch_correct old new (old.length + new.length) old.length new.length
    (le_refl _) (le_refl _) (le_refl _) []
  simp only [List.take_length, List.append_nil] at h
  simpa [applyScript, diffLines] using h

/-- Claim C8: on old lines `["a","b","c"]` and new lines `["a","x","c"]`
the diff is exactly `removed(oldLine 2, "b")` followed by
`added(newLine 2, "x")` — the order the tie-break rule produces — with
lines 1 and 3 absent from the result. -/
theorem claim_C8_substitution_example :
    diffLines ["a", "b", "c"] ["a", "x", "c"] = [mkRemoved 2 "b", mkAdded 2 "x"] := by
  decide

/-- Claim C9: for every pair of inputs, the change sequence returned by
`compareLines` is monotone non-decreasing in `oldLineNumber` over its
`removed` entries and in `newLineNumber` over its `added` entries, read
in output order. -/
theorem claim_C9_line_numbers_monotone (oldContent newContent : String) :
    (removedPositions (compareLines oldContent newContent)).Pairwise (· ≤ ·) ∧
    (addedPositions (compareLines oldContent newContent)).Pairwise (· ≤ ·) := by
  obtain ⟨⟨hr, _⟩, ha, _⟩ := script_shape (splitNl oldContent) (splitNl newContent)
    ((splitNl oldContent).length + (splitNl newContent).length)
    (splitNl oldContent).length (splitNl newContent).length
  exact ⟨hr.imp le_of_lt, ha.imp le_of_lt⟩

/-- One `removed` entry per line of `old` up to index `i`, with 1-based
old-line numbers. -/
def remsUpTo (old : List String) (i : Nat) : List LineChange :=
  (List.range i).map (fun k => mkRemoved (k + 1) (old.getD k ""))

/-- One `added` entry per line of `new` up to index `j`, with 1-based
new-line numbers. -/
def addsUpTo (new : List String) (j : Nat) : List LineChange :=
  (List.range j).map (fun k => mkAdded (k + 1) (new.getD k ""))

lemma dpF_left_zero (old new : List String) (f j : Nat) : dpF old new f 0 j = 0 := by
  cases f <;> simp [dpF]

lemma dpF_right_zero (old new : List String) (f i : Nat) : dpF old new f i 0 = 0 := by
  cases f <;> simp [dpF]

lemma dpT_left_zero (old new : List String) (j : Nat) : dpT old new 0 j = 0 :=
  dpF_left_zero old new (0 + j) j

lemma dpT_right_zero (old new : List String) (i : Nat) : dpT old new i 0 = 0 :=
  dpF_right_zero old new (i + 0) i

lemma dpF_vs_empty (old : List String) (hold : ∀ l ∈ old, l ≠ "") (f : Nat) :
    ∀ k, k + 1 ≤ f → k ≤ old.length → dpF old [""] f k 1 = 0 := by
  induction f with
  | zero => intro k hf _; omega
  | succ f ih =>
    intro k hf hk
    by_cases hk0 : k = 0
    · subst hk0; simp [dpF]
    · have hz : ¬ (k = 0 ∨ (1 : Nat) = 0) := by omega
      have hne : old.getD (k - 1) "" ≠ ([""] : List String).getD 0 "" := by
        have hmem : old.getD (k - 1) "" ∈ old := by
          rw [List.getD_eq_getElem old "" (by omega)]
          exact List.getElem_mem _
        simpa using hold _ hmem
      simp only [dpF, if_neg hz, if_neg hne]
      rw [ih (k - 1) (by omega) (by omega)]
      simp [dpF_right_zero]

lemma dpT_vs_empty (old : List String) (hold : ∀ l ∈ old, l ≠ "") (k : Nat)
    (hk : k ≤ old.length) : dpT old [""] k 1 = 0 :=
  dpF_vs_empty old hold (k + 1) k (le_refl _) hk

lemma backtrack_j_zero (old new : List String) (f : Nat) :
    ∀ i acc, i ≤ f → backtrackF old new f i 0 acc = remsUpTo old i ++ acc := by
  induction f with
  | zero =>
    intro i acc hf
    have : i = 0 := by omega
    subst this
    simp [backtrackF, remsUpTo]
  | succ f ih =>
    intro i acc hf
    by_cases hi0 : i = 0
    · subst hi0; simp [backtrackF, remsUpTo]
    · obtain ⟨i', rfl⟩ : ∃ i', i = i' + 1 := ⟨i - 1, by omega⟩
      have h0 : ¬ (i' + 1 = 0 ∧ (0 : Nat) = 0) := by omega
      have heq : ¬ (0 < i' + 1 ∧ 0 < (0 : Nat) ∧
          old.getD (i' + 1 - 1) "" = new.getD (0 - 1) "") := by
        intro h; exact absurd h.2.1 (by omega)
      have hadd : ¬ (0 < (0 : Nat) ∧ (i' + 1 = 0 ∨
          dpT old new (i' + 1 - 1) 0 ≤ dpT old new (i' + 1) (0 - 1))) := by
        intro h; exact absurd h.1 (by omega)
      rw [backtrackF_succ, if_neg h0, if_neg heq, if_neg hadd,
        if_pos (show 0 < i' + 1 by omega)]
      simp only [Nat.add_sub_cancel]
      rw [ih i' _ (by omega)]
      simp [remsUpTo, List.range_succ]

lemma backtrack_empty_old (L : List String) (hL : ∀ l ∈ L, l ≠ "") (f : Nat) :
    ∀ j acc, 1 + j ≤ f → j ≤ L.length →
      backtrackF [""] L f 1 j acc = mkRemoved 1 "" :: (addsUpTo L j ++ acc) := by
  induction f with
  | zero => intro j acc hf _; omega
  | succ f ih =>
    intro j acc hf hj
    by_cases hj0 : j = 0
    · subst hj0
      have h0 : ¬ ((1 : Nat) = 0 ∧ (0 : Nat) = 0) := by omega
      have heq : ¬ (0 < (1 : Nat) ∧ 0 < (0 : Nat) ∧
          ([""] : List String).getD (1 - 1) "" = L.getD (0 - 1) "") := by
        intro h; exact absurd h.2.1 (by omega)
      have hadd : ¬ (0 < (0 : Nat) ∧ ((1 : Nat) = 0 ∨
          dpT [""] L (1 - 1) 0 ≤ dpT [""] L 1 (0 - 1))) := by
        intro h; exact absurd h.1 (by omega)
      rw [backtrackF_succ, if_neg h0, if_neg heq, if_neg hadd,
        if_pos (show 0 < (1 : Nat) by omega)]
      simp only [show (1 : Nat) - 1 = 0 from rfl]
      rw [backtrackF_zero_zero]
      simp [addsUpTo]
    · obtain ⟨j', rfl⟩ : ∃ j', j = j' + 1 := ⟨j - 1, by omega⟩
      have h0 : ¬ ((1 : Nat) = 0 ∧ j' + 1 = 0) := by omega
      have hne : ([""] : List String).getD (1 - 1) "" ≠ L.getD (j' + 1 - 1) "" := by
        have hmem : L.getD (j' + 1 - 1) "" ∈ L := by
          rw [List.getD_eq_getElem L "" (by omega)]
          exact List.getElem_mem _
        simpa using (hL _ hmem).symm
      have heq : ¬ (0 < (1 : Nat) ∧ 0 < j' + 1 ∧
          ([""] : List String).getD (1 - 1) "" = L.getD (j' + 1 - 1) "") := by
        intro h; exact absurd h.2.2 hne
      have hadd : 0 < j' + 1 ∧ ((1 : Nat) = 0 ∨
          dpT [""] L (1 - 1) (j' + 1) ≤ dpT [""] L 1 (j' + 1 - 1)) := by
        refine ⟨by omega, Or.inr ?_⟩
        rw [show (1 : Nat) - 1 = 0 from rfl, dpT_left_zero]
        omega
      rw [backtrackF_succ, if_neg h0, if_neg heq, if_pos hadd]
      simp only [Nat.add_sub_cancel]
      rw [ih j' _ (by omega) (by omega)]
      simp [addsUpTo, List.range_succ]

lemma backtrack_empty_new (L : List String) (hL : ∀ l ∈ L, l ≠ "") (f m : Nat)
    (hf : m + 1 ≤ f) (hm : m ≤ L.length) :
    ∀ acc, backtrackF L [""] f m 1 acc = remsUpTo L m ++ (mkAdded 1 "" :: acc) := by
  intro acc
  obtain ⟨f', rfl⟩ : ∃ f', f = f' + 1 := ⟨f - 1, by omega⟩
  have h0 : ¬ (m = 0 ∧ (1 : Nat) = 0) := by omega
  have heq : ¬ (0 < m ∧ 0 < (1 : Nat) ∧ L.getD (m - 1) "" = ([""] : List String).getD (1 - 1) "") := by
    rintro ⟨hm0, -, hl⟩
    have hmem : L.getD (m - 1) "" ∈ L := by
      rw [List.getD_eq_getElem L "" (by omega)]
      exact List.getElem_mem _
    exact hL _ hmem (by simpa using hl)
  have hadd : 0 < (1 : Nat) ∧ (m = 0 ∨ dpT L [""] (m - 1) 1 ≤ dpT L [""] m (1 - 1)) := by
    refine ⟨by omega, ?_⟩
    by_cases hm0 : m = 0
    · exact Or.inl hm0
    · refine Or.inr ?_
      rw [dpT_vs_empty L hL (m - 1) (by omega), show (1 : Nat) - 1 = 0 from rfl, dpT_right_zero]
  rw [backtrackF_succ, if_neg h0, if_neg heq, if_pos hadd]
  simp only [show (1 : Nat) - 1 = 0 from rfl]
  rw [backtrack_j_zero L [""] f' m _ (by omega)]
  simp

/-- Claim C7 counterexample: at `T = "a"` the claim fails — Go's
`strings.Split("", "\n")` yields one empty line, so `compareLines "" "a"`
contains a `removed` entry for old line 1 in addition to the single
`added` entry, not `added` entries alone (and symmetrically
`compareLines "a" ""` contains an extra `added` entry). -/
theorem claim_C7_counterexample :
    compareLines "" "a" = [mkRemoved 1 "", mkAdded 1 "a"] ∧
    compareLines "" "a" ≠ [mkAdded 1 "a"] ∧
    compareLines "a" "" = [mkRemoved 1 "a", mkAdded 1 ""] ∧
    compareLines "a" "" ≠ [mkRemoved 1 "a"] := by
  decide

/-- Claim C7 (amended): the empty text splits into one empty line, so
for every `T` all of whose lines are non-empty, `compareLines "" T`
yields `removed(oldLine 1, "")` followed by exactly one `added` entry
per line of `T` with `newLineNumber` equal to that line's 1-based
position; symmetrically `compareLines T ""` yields one `removed` entry
per line of `T` with `oldLineNumber` its 1-based position, followed by
`added(newLine 1, "")`. -/
theorem claim_C7_amended (T : String) (hT : ∀ l ∈ splitNl T, l ≠ "") :
    compareLines "" T = mkRemoved 1 "" :: addsUpTo (splitNl T) (splitNl T).length ∧
    compareLines T "" = remsUpTo (splitNl T) (splitNl T).length ++ [mkAdded 1 ""] := by
  have hsplit : splitNl "" = [""] := rfl
  constructor
  · rw [compareLines, hsplit, diffLines]
    simp only [List.length_singleton]
    rw [backtrack_empty_old (splitNl T) hT (1 + (splitNl T).length) (splitNl T).length []
      (le_refl _) (le_refl _)]
    simp
  · rw [compareLines, hsplit, diffLines]
    simp only [List.length_singleton]
    rw [backtrack_empty_new (splitNl T) hT ((splitNl T).length + 1) (splitNl T).length
      (le_refl _) (le_refl _) []]

/-- Witness for the amended claim C7 at the concrete text `"a\nb"`. -/
theorem claim_C7_amended_witness :
    compareLines "" "a\nb"
        = mkRemoved 1 "" :: addsUpTo (splitNl "a\nb") (splitNl "a\nb").length ∧
    compareLines "a\nb" ""
        = remsUpTo (splitNl "a\nb") (splitNl "a\nb").length ++ [mkAdded 1 ""] :=
  claim_C7_amended "a\nb" (by decide)

/-- Embedding of the Go struct `FileChange` (watcher.go).  `os.FileInfo`
is modelled by its presence (`nil` or not); Go zero values for fields a
struct literal leaves unset are `""`, `[]` and `false`. -/
structure FileChange where
  path : String
  op : String
  content : String
  prevContent : String
  lineChanges : List LineChange
  hasFileInfo : Bool
deriving DecidableEq, Repr

/-- Environment of one `readFileContent` call: whether `os.Open`
succeeds, whether `file.Stat` succeeds, the stat'ed size in bytes,
whether reading the opened file to the end succeeds, and the content
read. -/
structure FileEnv where
  openOk : Bool
  statOk : Bool
  size : Nat
  readOk : Bool
  content : String
deriving DecidableEq, Repr

/-- Embedding of `readFileContent` (watcher.go; the `FileWatcher`
method and the package-level function have the same observable
structure): fail when the file cannot be opened, cannot be stat'ed, its
stat'ed size strictly exceeds `10 * 1024 * 1024` bytes, or the read of
the opened file fails; otherwise return the content. -/
def readFileContent (e : FileEnv) : Except String String :=
  if !e.openOk then .error "open failed"
  else if !e.statOk then .error "stat failed"
  else if e.size > 10 * 1024 * 1024 then .error "file too large"
  else if !e.readOk then .error "read failed"
  else .ok e.content

/-- Whether a `readFileContent` call fails. -/
def readFileFails (e : FileEnv) : Bool :=
  match readFileContent e with
  | .error _ => true
  | .ok _ => false

/-- Embedding of `FileWatcher.handleFileChange` (watcher.go): on read
failure the event is dropped and the cache untouched; on success the
previous content is fetched from `fileCache` (a Go map read, empty
string when the key is absent), the diff is computed with
`compareLines`, the cache entry is overwritten with the new content,
and the callback is invoked with a record whose `Op` is `"modified"`.
Returns the updated cache and the `FileChange` passed to the callback
(`none` when the callback is not invoked). -/
def handleFileChange (fileCache : String → String) (filePath : String) (e : FileEnv) :
    (String → String) × Option FileChange :=
  match readFileContent e with
  | .error _ => (fileCache, none)
  | .ok newContent =>
    let oldContent := fileCache filePath
    let changes := compareLines oldContent newContent
    let cache' := fun p => if p = filePath then newContent else fileCache p
    (cache', some { path := filePath, op := "modified", content := newContent,
                    prevContent := oldContent, lineChanges := changes,
                    hasFileInfo := true })

/-- One fsnotify event as seen by the `WatchDirectory` loop: the path
and which operation bits are set. -/
structure FsEvent where
  name : String
  isWrite : Bool
  isCreate : Bool
  isRemove : Bool
  isRename : Bool
deriving DecidableEq, Repr

/-- The operation-kind `switch` at the top of the `WatchDirectory`
event loop (watcher.go): the first matching flag wins, and events with
none of the four flags are skipped (`continue`). -/
def watchDirOp (ev : FsEvent) : Option String :=
  if ev.isWrite then some "modified"
  else if ev.isCreate then some "created"
  else if ev.isRemove then some "removed"
  else if ev.isRename then some "renamed"
  else none

/-- Embedding of the per-event body of the `WatchDirectory` goroutine
(watcher.go): remove/rename events are reported without a content read;
the other operations read the file and drop the event on read failure;
the `FileChange` literal sets only `Path`, `Op`, `Content` and
`FileInfo`, so `PrevContent` and `LineChanges` keep their zero values —
directory mode has no content cache and performs no diff.  Returns the
`FileChange` passed to the callback, `none` when no callback happens. -/
def watchDirHandle (ev : FsEvent) (e : FileEnv) : Option FileChange :=
  match watchDirOp ev with
  | none => none
  | some op =>
    if op = "removed" ∨ op = "renamed" then
      some { path := ev.name, op := op, content := "", prevContent := "",
             lineChanges := [], hasFileInfo := false }
    else
      match readFileContent e with
      | .error _ => none
      | .ok content =>
        some { path := ev.name, op := op, content := content, prevContent := "",
               lineChanges := [], hasFileInfo := true }

/-- Claim C2 counterexample: in recursive-directory mode a write event
with a successful read (new content `"b"`) produces a record with empty
`lineChanges` and empty `prevContent` — no ContentCache fetch, no
DiffEngine run, no cache update — although the DiffEngine result
against a previous content `"a"` is non-empty. -/
theorem claim_C2_counterexample :
    watchDirHandle ⟨"f.log", true, false, false, false⟩ ⟨true, true, 1, true, "b"⟩
        = some { path := "f.log", op := "modified", content := "b", prevContent := "",
                 lineChanges := [], hasFileInfo := true } ∧
    compareLines "a" "b" ≠ [] := by
  decide

/-- Claim C2 (amended): in single-path mode, a write event with a
successful read fetches the previous content from the cache, runs
`compareLines` on old versus new, updates the cache to the new content,
and invokes the callback with operation `modified` and `lineChanges`
the diff result.  In recursive-directory mode, a write event with a
successful read invokes the callback with operation `modified` and the
new content, but with empty `lineChanges` and `prevContent`:
ContentCache and DiffEngine are not involved. -/
theorem claim_C2_amended :
    (∀ (fileCache : String → String) (filePath : String) (e : FileEnv) (c : String),
        readFileContent e = .ok c →
        handleFileChange fileCache filePath e =
          (fun p => if p = filePath then c else fileCache p,
            some { path := filePath, op := "modified", content := c,
                   prevContent := fileCache filePath,
                   lineChanges := compareLines (fileCache filePath) c,
                   hasFileInfo := true })) ∧
    (∀ (ev : FsEvent) (e : FileEnv) (c : String),
        ev.isWrite = true →
        readFileContent e = .ok c →
        watchDirHandle ev e =
          some { path := ev.name, op := "modified", content := c, prevContent := "",
                 lineChanges := [], hasFileInfo := true }) := by
  constructor
  · intro fileCache filePath e c hc
    simp [handleFileChange, hc]
  · intro ev e c hw hc
    simp [watchDirHandle, watchDirOp, hw, hc]

/-- Witness for the amended claim C2 at concrete inputs: cached content
`"a"`, a successful write-read with new content `"b"`, in both modes. -/
theorem claim_C2_amended_witness :
    handleFileChange (fun _ => "a") "f.log" ⟨true, true, 1, true, "b"⟩
        = (fun p => if p = "f.log" then "b" else (fun _ : String => "a") p,
            some { path := "f.log", op := "modified", content := "b",
                   prevContent := (fun _ : String => "a") "f.log",
                   lineChanges := compareLines ((fun _ : String => "a") "f.log") "b",
                   hasFileInfo := true }) ∧
    watchDirHandle ⟨"f.log", true, false, false, false⟩ ⟨true, true, 1, true, "b"⟩
        = some { path := "f.log", op := "modified", content := "b", prevContent := "",
                 lineChanges := [], hasFileInfo := true } :=
  ⟨claim_C2_amended.1 (fun _ => "a") "f.log" ⟨true, true, 1, true, "b"⟩ "b" rfl,
   claim_C2_amended.2 ⟨"f.log", true, false, false, false⟩ ⟨true, true, 1, true, "b"⟩ "b"
     rfl rfl⟩

/-- Claim C6: for a single-file watcher with cached content `C`, a
write event that leaves the file strictly over 10 MiB produces no
record and leaves the cache entry at `C`; a subsequent accepted write
under the cap is diffed against `C` (and `prevContent` of the emitted
record is `C`). -/
theorem claim_C6_size_cap (C filePath : String) (fileCache : String → String)
    (hC : fileCache filePath = C) (e1 e2 : FileEnv)
    (h1open : e1.openOk = true) (h1stat : e1.statOk = true)
    (h1big : e1.size > 10 * 1024 * 1024)
    (h2open : e2.openOk = true) (h2stat : e2.statOk = true)
    (h2small : e2.size ≤ 10 * 1024 * 1024) (h2read : e2.readOk = true) :
    (handleFileChange fileCache filePath e1).2 = none ∧
    (handleFileChange fileCache filePath e1).1 filePath = C ∧
    (handleFileChange (handleFileChange fileCache filePath e1).1 filePath e2).2
      = some { path := filePath, op := "modified", content := e2.content,
               prevContent := C, lineChanges := compareLines C e2.content,
               hasFileInfo := true } := by
  have hcap2 : ¬ (e2.size > 10 * 1024 * 1024) := by omega
  have hrd1 : readFileContent e1 = .error "file too large" := by
    simp [readFileContent, h1open, h1stat, h1big]
  have hrd2 : readFileContent e2 = .ok e2.content := by
    simp [readFileContent, h2open, h2stat, h2read, hcap2]
  refine ⟨?_, ?_, ?_⟩ <;> simp [handleFileChange, hrd1, hrd2, hC]

/-- Witness for claim C6: a 10 MiB + 1 write is dropped and the cache
keeps `"a"`; the next write (content `"b"`, 1 byte) is diffed against
`"a"`. -/
theorem claim_C6_size_cap_witness :
    (handleFileChange (fun _ => "a") "f.log" ⟨true, true, 10485761, true, "X"⟩).2 = none ∧
    (handleFileChange (fun _ => "a") "f.log" ⟨true, true, 10485761, true, "X"⟩).1 "f.log"
        = "a" ∧
    (handleFileChange
        (handleFileChange (fun _ => "a") "f.log" ⟨true, true, 10485761, true, "X"⟩).1
        "f.log" ⟨true, true, 1, true, "b"⟩).2
      = some { path := "f.log", op := "modified",
               content := (⟨true, true, 1, true, "b"⟩ : FileEnv).content,
               prevContent := "a",
               lineChanges := compareLines "a" (⟨true, true, 1, true, "b"⟩ : FileEnv).content,
               hasFileInfo := true } :=
  claim_C6_size_cap "a" "f.log" (fun _ => "a") rfl
    ⟨true, true, 10485761, true, "X"⟩ ⟨true, true, 1, true, "b"⟩
    rfl rfl (by decide) rfl rfl (by decide) rfl

/-- Claim C10 counterexample: a read failure after a successful open
and stat of a small file (a Go `io.ReadAll` / `reader.ReadString`
error) makes `readFileContent` fail although none of the three listed
conditions (open failure, stat failure, size strictly over the cap)
holds, so the claimed "if and only if" is false at this input. -/
theorem claim_C10_counterexample :
    readFileFails ⟨true, true, 0, false, ""⟩ = true ∧
    (⟨true, true, 0, false, ""⟩ : FileEnv).openOk = true ∧
    (⟨true, true, 0, false, ""⟩ : FileEnv).statOk = true ∧
    ¬ ((⟨true, true, 0, false, ""⟩ : FileEnv).size > 10 * 1024 * 1024) := by
  decide

/-- Claim C10 (amended): `readFileContent` fails iff the file cannot be
opened or stat'ed, or its stat'ed size strictly exceeds
`10 * 1024 * 1024` bytes, or the subsequent read of the opened file
fails; in particular a file of exactly 10 MiB whose open, stat and read
succeed is read and processed normally. -/
theorem claim_C10_amended :
    (∀ e : FileEnv,
        readFileFails e = true ↔
          (e.openOk = false ∨ e.statOk = false ∨ e.size > 10 * 1024 * 1024 ∨
            e.readOk = false)) ∧
    (∀ e : FileEnv, e.openOk = true → e.statOk = true → e.readOk = true →
        e.size = 10 * 1024 * 1024 → readFileContent e = .ok e.content) := by
  constructor
  · intro e
    obtain ⟨o, s, z, r, c⟩ := e
    by_cases hcap : z > 10 * 1024 * 1024 <;>
      cases o <;> cases s <;> cases r <;>
        simp [readFileFails, readFileContent, hcap]
  · intro e ho hs hr hz
    have hcap : ¬ (e.size > 10 * 1024 * 1024) := by omega
    simp [readFileContent, ho, hs, hr, hcap]

/-- Witness for the amended claim C10: a file of exactly
`10 * 1024 * 1024` bytes is read successfully. -/
theorem claim_C10_amended_witness :
    readFileContent ⟨true, true, 10 * 1024 * 1024, true, "x"⟩
      = .ok (⟨true, true, 10 * 1024 * 1024, true, "x"⟩ : FileEnv).content :=
  claim_C10_amended.2 ⟨true, true, 10 * 1024 * 1024, true, "x"⟩ rfl rfl rfl rfl

/-- Capacity of a subscriber's outbound queue: `make(chan []byte, 256)`
in `HandleWebSocket` (websocket.go). -/
def sendQueueCap : Nat := 256

/-- One subscriber of the hub: the Go `Client`, with its buffered
`send` channel modelled as the queue of messages accepted but not yet
written, and an identity standing for the connection pointer. -/
structure Client where
  id : Nat
  queue : List String
deriving DecidableEq, Repr

/-- Embedding of one iteration of the `BroadcastMessages` dispatcher
loop (websocket.go) over the registry: for each client a non-blocking
`select` send — append to the queue when it has spare capacity,
otherwise `close`/`delete`/`conn.Close()` the client.  Returns the
remaining registry and the clients unregistered and torn down. -/
def dispatchMessage : List Client → String → List Client × List Client
  | [], _ => ([], [])
  | c :: rest, msg =>
    let r := dispatchMessage rest msg
    if c.queue.length < sendQueueCap then
      ({ c with queue := c.queue ++ [msg] } :: r.1, r.2)
    else
      (r.1, c :: r.2)

lemma dispatchMessage_fst (msg : String) :
    ∀ clients : List Client,
      (dispatchMessage clients msg).1
        = (clients.filter (fun c => decide (c.queue.length < sendQueueCap))).map
            (fun c => { c with queue := c.queue ++ [msg] }) := by
  intro clients
  induction clients with
  | nil => rfl
  | cons c rest ih =>
    by_cases h : c.queue.length < sendQueueCap <;>
      simp [dispatchMessage, h, ih]

lemma dispatchMessage_snd (msg : String) :
    ∀ clients : List Client,
      (dispatchMessage clients msg).2
        = clients.filter (fun c => !decide (c.queue.length < sendQueueCap)) := by
  intro clients
  induction clients with
  | nil => rfl
  | cons c rest ih =>
    by_cases h : c.queue.length < sendQueueCap <;>
      simp [dispatchMessage, h, ih]

/-- Claim C5: dispatching one message is a total function of the
registry (the dispatcher never blocks): every subscriber with spare
queue capacity stays registered and receives the message at the back of
its queue, every subscriber with a full queue is unregistered and torn
down, and the queue capacity is 256. -/
theorem claim_C5_dispatch (clients : List Client) (msg : String) :
    (dispatchMessage clients msg).1
        = (clients.filter (fun c => decide (c.queue.length < sendQueueCap))).map
            (fun c => { c with queue := c.queue ++ [msg] }) ∧
    (dispatchMessage clients msg).2
        = clients.filter (fun c => !decide (c.queue.length < sendQueueCap)) ∧
    sendQueueCap = 256 :=
  ⟨dispatchMessage_fst msg clients, dispatchMessage_snd msg clients, rfl⟩

/-- A successfully-unmarshalled inbound `SocketMessage` (the main
source file): the `type` field and, because the only use of `data` is
the `msg.Data.(string)` assertion, the `data` field as a string when it
is one (`none` when absent or not a string). -/
structure SocketMessage where
  type : String
  dataStr : Option String
deriving DecidableEq, Repr

/-- A reply the handler marshals and returns (these fixed-shape maps
always marshal successfully). -/
inductive WireReply where
  | info (path : String)
  | fileContent (text : String)
  | pong
deriving DecidableEq, Repr

/-- Observable outcome of `onSocketMessage` for one message:
`fatalExit` models `log.Fatalf` (and an unrecovered panic), which
terminates the whole process; `errResult` models returning
`(nil, err)`; `reply` models returning a marshalled response. -/
inductive HandlerOutcome where
  | fatalExit
  | errResult (msg : String)
  | reply (r : WireReply)
deriving DecidableEq, Repr

/-- Environment of an `os.ReadFile` call made for `get_file_content`. -/
structure ReadEnv where
  readOk : Bool
  content : String
deriving DecidableEq, Repr

/-- Embedding of `onSocketMessage` (the main source file).  `parsed` is
the result of `json.Unmarshal` (`none` on invalid JSON).  On unmarshal
failure the code calls `log.Fatalf` — process exit — before its
(unreachable) `return nil, err`.  `get_info` replies with the watched
path; `get_file_content` asserts `msg.Data.(string)` (a non-string
panics, killing the process) and calls `os.ReadFile`, whose failure is
also `log.Fatalf`; `ping` replies `pong`; any other type returns an
error. -/
def onSocketMessage (parsed : Option SocketMessage) (env : ReadEnv) (watchPath : String) :
    HandlerOutcome :=
  match parsed with
  | none => .fatalExit
  | some msg =>
    if msg.type = "get_info" then .reply (.info watchPath)
    else if msg.type = "get_file_content" then
      match msg.dataStr with
      | none => .fatalExit
      | some _ => if env.readOk then .reply (.fileContent env.content) else .fatalExit
    else if msg.type = "ping" then .reply .pong
    else .errResult ("unknown message type: " ++ msg.type)

/-- Embedding of the per-message step of `handleClientRead`
(websocket.go): a handler error is logged and the loop continues; a
reply is queued on the client's send channel and the loop continues; a
process exit ends everything.  Returns whether the connection (and
process) keeps running, and the reply queued, if any. -/
def handleClientReadStep (out : HandlerOutcome) : Bool × Option WireReply :=
  match out with
  | .fatalExit => (false, none)
  | .errResult _ => (true, none)
  | .reply r => (true, some r)

/-- Claim C1: the claim holds for unknown-type messages — rejected with
an error result and the connection keeps running — but fails for a
malformed envelope: `json.Unmarshal` failure hits `log.Fatalf`, which
terminates the whole process (its `return nil, err` is unreachable dead
code, and the spec itself flags this control flow), so handling a
malformed message does terminate the connection. -/
theorem claim_C1_malformed_fatal :
    onSocketMessage none ⟨true, ""⟩ "watched.log" = .fatalExit ∧
    (handleClientReadStep (onSocketMessage none ⟨true, ""⟩ "watched.log")).1 = false ∧
    onSocketMessage (some ⟨"bogus", none⟩) ⟨true, ""⟩ "watched.log"
        = .errResult ("unknown message type: " ++ "bogus") ∧
    (handleClientReadStep
        (onSocketMessage (some ⟨"bogus", none⟩) ⟨true, ""⟩ "watched.log")).1 = true := by
  decide

/-- The Go struct fields of `FileChange` with their `encoding/json`
tags, in source order (watcher.go lines 20-27). -/
def fileChangeFieldTags : List (String × String) :=
  [("Path", "path"), ("Op", "op"), ("Content", "-"), ("PrevContent", "-"),
   ("LineChanges", "line_changes"), ("FileInfo", "file_info")]

/-- The JSON object keys of the wire representation of a `FileChange`,
per the `encoding/json` rule applied by `onFileChange`'s
`json.Marshal`: a field tagged `-` is omitted, every other field is
serialized under its tag name (none of the tags has `omitempty`). -/
def fileChangeWireKeys : List String :=
  fileChangeFieldTags.filterMap (fun ft => if ft.2 = "-" then none else some ft.2)

/-- Claim C3 counterexample: the wire representation of a pushed
`FileChange` contains the key `file_info` — the `FileInfo` field is
tagged `json:"file_info"`, not excluded — so the wire message does not
contain only the path, the operation and the line changes. -/
theorem claim_C3_counterexample :
    "file_info" ∈ fileChangeWireKeys ∧
    "file_info" ∉ ["path", "op", "line_changes"] := by
  decide

/-- Claim C3 (amended): the `content` and `previousContent` fields are
excluded from the wire representation (tag `-`), but `fileMetadata` is
serialized under the key `file_info`: the wire keys are exactly `path`,
`op`, `line_changes` and `file_info`. -/
theorem claim_C3_amended :
    fileChangeWireKeys = ["path", "op", "line_changes", "file_info"] := by
  decide

end LogViewer
